import Mathlib

/-!
Shallow embedding of `src/backend/utils/pdf_utils.py`: text extraction from
PDF documents with per-item error isolation, metadata probing, and batch
aggregation.  The filesystem and the external PDF parser (pypdf) are modelled
by a `World` mapping each path to what opening it yields: nothing (the file is
missing), a parse failure, or a parsed document with its page texts, optional
metadata object and byte size.  Python dictionaries are modelled as
insertion-ordered association lists with update-in-place semantics.
-/

namespace PdfUtils

/-- Python `Path(p).name`: the final path component, i.e. the characters
after the last separator. -/
def basename (p : String) : String :=
  ⟨(p.data.reverse.takeWhile (fun c => c != '/')).reverse⟩

/-- The optional document-information object `reader.metadata` of pypdf:
its `title` and `author` attributes are `None` when absent. -/
structure PdfInfo where
  title : Option String
  author : Option String
deriving DecidableEq, Repr

/-- A parseable PDF document as the external parser presents it: page texts in
file order (`none` when `page.extract_text()` yields nothing), the optional
metadata object, and the filesystem size in bytes. -/
structure PdfDoc where
  pages : List (Option String)
  metadata : Option PdfInfo
  sizeBytes : Nat
deriving DecidableEq, Repr

/-- What a path resolves to: a parseable document, or a byte stream the parser
rejects (opening it raises `PdfReadError msg`). A missing file is `none` in
the `World` map. -/
inductive FileEntry where
  | pdf (doc : PdfDoc)
  | corrupt (msg : String)
deriving DecidableEq, Repr

/-- The filesystem / parser environment. -/
def World := String → Option FileEntry

/-- Classified read failures raised by `extract_text_from_pdf`
(`FileNotFoundError`, `pypdf.errors.PdfReadError`). -/
inductive PdfError where
  | notFound (path : String)
  | corruptDoc (msg : String)
deriving DecidableEq, Repr

/-- The message `str(e)` of a read failure. -/
def errMsg : PdfError → String
  | .notFound p => "No such file or directory: " ++ p
  | .corruptDoc m => m

/-- Result of `get_pdf_metadata`: the full record on success, or the degraded
`{filename, error}` record on any internal failure. -/
inductive DocumentMetadata where
  | ok (filename : String) (pages : Nat) (file_size_mb : ℚ)
      (title author : Option String)
  | degraded (filename : String) (error : String)
deriving DecidableEq, Repr

/-- One value of the mapping returned by `extract_pdfs_with_metadata`:
`{'text': ..., 'meta': ...}`. -/
structure Entry where
  text : String
  meta : DocumentMetadata
deriving DecidableEq, Repr

/-- Errors `extract_pdfs_with_metadata` can raise: a propagated read failure
from the single-path branch, or the `TypeError` for inputs that are neither a
string nor a list. -/
inductive ExtractError where
  | pdfErr (e : PdfError)
  | invalidInputType
deriving DecidableEq, Repr

/-- The dynamically typed argument of `extract_pdfs_with_metadata`: a single
path string, a list of paths, or any other Python value (e.g. the int 42). -/
inductive PdfInput where
  | str (p : String)
  | list (ps : List String)
  | other
deriving DecidableEq, Repr

/-- Python `round(x, 2)`: round to two decimal places. -/
def round2 (q : ℚ) : ℚ := (round (q * 100) : ℤ) / 100

/-- Embeds `extract_text_from_pdf`: open the document, concatenate each page's text
followed by a newline; raise `FileNotFoundError` / `PdfReadError` otherwise. -/
def extract_text_from_pdf (w : World) (pdf_path : String) : Except PdfError String :=
  match w pdf_path with
  | none => .error (.notFound pdf_path)
  | some (.corrupt m) => .error (.corruptDoc m)
  | some (.pdf doc) =>
      .ok (doc.pages.foldl (fun text pg => text ++ pg.getD "" ++ "\n") "")

/-- Lookup in a Python dict modelled as an association list. -/
def dictGet {α : Type} : List (String × α) → String → Option α
  | [], _ => none
  | (k', v') :: d, k => if k' = k then some v' else dictGet d k

/-- Assignment `d[k] = v` on a Python dict: update in place when the key exists, append
otherwise (insertion order preserved). -/
def dictInsert {α : Type} : List (String × α) → String → α → List (String × α)
  | [], k, v => [(k, v)]
  | (k', v') :: d, k, v =>
      if k' = k then (k, v) :: d else (k', v') :: dictInsert d k v

/-- The keys of a dict in iteration order. -/
def keys {α : Type} (d : List (String × α)) : List String := d.map Prod.fst

/-- The loop body of `extract_text_from_multiple_pdfs`: accumulate
`results[filename] = text` on success, append `(filename, error)` to
`failed_files` on failure, and continue. -/
def extractLoop (w : World) :
    List String → List (String × String) → List (String × String) →
    List (String × String) × List (String × String)
  | [], results, failed_files => (results, failed_files)
  | p :: ps, results, failed_files =>
      match extract_text_from_pdf w p with
      | .ok text => extractLoop w ps (dictInsert results (basename p) text) failed_files
      | .error e => extractLoop w ps results (failed_files ++ [(basename p, errMsg e)])

/-- Embeds `extract_text_from_multiple_pdfs`: per-file extraction with per-file error
isolation.  The first component is the returned `{filename: text}` dict; the
second is the function-local `failed_files` list (the FailureLedger), exposed
here because the embedding has no logging side channel. -/
def extract_text_from_multiple_pdfs (w : World) (pdf_paths : List String) :
    List (String × String) × List (String × String) :=
  extractLoop w pdf_paths [] []

/-- The ledger record a single path contributes: `none` when extraction
succeeds, `some (filename, str(e))` when it fails. -/
def failEntry (w : World) (p : String) : Option (String × String) :=
  match extract_text_from_pdf w p with
  | .ok _ => none
  | .error e => some (basename p, errMsg e)

/-- Embeds `get_pdf_metadata`: stat the file and parse it; any failure is caught and
downgraded to the `{filename, error}` record.  On success `title`/`author`
are `reader.metadata.title if reader.metadata else "Unknown"` (so a present
metadata object with a missing field yields `None`, not `"Unknown"`). -/
def get_pdf_metadata (w : World) (pdf_path : String) : DocumentMetadata :=
  match w pdf_path with
  | none => .degraded (basename pdf_path) (errMsg (.notFound pdf_path))
  | some (.corrupt m) => .degraded (basename pdf_path) (errMsg (.corruptDoc m))
  | some (.pdf doc) =>
      .ok (basename pdf_path) doc.pages.length
        (round2 ((doc.sizeBytes : ℚ) / (1024 * 1024)))
        (match doc.metadata with | some i => i.title | none => some "Unknown")
        (match doc.metadata with | some i => i.author | none => some "Unknown")

/-- The second pass of the batch branch of `extract_pdfs_with_metadata`: for
each path in original input order, pair `batch.get(filename, "")` with a fresh
metadata probe and write the record into the result dict. -/
def mergeLoop (w : World) (batch : List (String × String)) :
    List String → List (String × Entry) → List (String × Entry)
  | [], results => results
  | p :: ps, results =>
      mergeLoop w batch ps
        (dictInsert results (basename p)
          ⟨(dictGet batch (basename p)).getD "", get_pdf_metadata w p⟩)

/-- The batch branch of `extract_pdfs_with_metadata`: text pass, then merge
pass over the same input order. -/
def batchResult (w : World) (ps : List String) : List (String × Entry) :=
  mergeLoop w (extract_text_from_multiple_pdfs w ps).1 ps []

/-- Embeds `extract_pdfs_with_metadata`: dispatch on the dynamic type of the input.
A single string propagates read failures; a list uses the two-pass batch
algorithm; anything else raises `TypeError`. -/
def extract_pdfs_with_metadata (w : World) (pdf_input : PdfInput) :
    Except ExtractError (List (String × Entry)) :=
  match pdf_input with
  | .str p =>
      match extract_text_from_pdf w p with
      | .error e => .error (.pdfErr e)
      | .ok text => .ok [(basename p, ⟨text, get_pdf_metadata w p⟩)]
  | .list ps => .ok (batchResult w ps)
  | .other => .error .invalidInputType

/-- The last element of `ps` whose basename is `k`, if any. -/
def lastWith : List String → String → Option String
  | [], _ => none
  | p :: ps, k =>
      match lastWith ps k with
      | some q => some q
      | none => if basename p = k then some p else none

/-- The text of the last element of `ps` with basename `k` whose extraction
succeeded, if any. -/
def lastTextSuccess (w : World) : List String → String → Option String
  | [], _ => none
  | p :: ps, k =>
      match lastTextSuccess w ps k with
      | some t => some t
      | none =>
          if basename p = k then (extract_text_from_pdf w p).toOption else none

/-- First-occurrence deduplication of `l`, skipping anything in `seen`. -/
def firstOccFrom (seen : List String) : List String → List String
  | [] => []
  | k :: ks =>
      if k ∈ seen then firstOccFrom seen ks
      else k :: firstOccFrom (seen ++ [k]) ks

/-- First-occurrence deduplication: the iteration order of a Python dict whose
keys were inserted in the order of `l`. -/
def firstOcc (l : List String) : List String := firstOccFrom [] l

/-- The page texts `t1, ..., tn` joined as `t1 ++ "\n" ++ ... ++ tn ++ "\n"`,
written the way the specification describes the concatenation. -/
def pagesJoined : List (Option String) → String
  | [] => ""
  | t :: ts => t.getD "" ++ "\n" ++ pagesJoined ts

theorem dictGet_insert_eq {α : Type} (d : List (String × α)) (k : String) (v : α) :
    dictGet (dictInsert d k v) k = some v := by
  induction d with
  | nil => simp [dictInsert, dictGet]
  | cons kv d ih =>
      obtain ⟨k₀, v₀⟩ := kv
      by_cases h0 : k₀ = k
      · simp [dictInsert, h0, dictGet]
      · simp [dictInsert, h0, dictGet, ih]

theorem dictGet_insert_ne {α : Type} (d : List (String × α)) (k k' : String) (v : α)
    (h : k ≠ k') : dictGet (dictInsert d k v) k' = dictGet d k' := by
  induction d with
  | nil => simp [dictInsert, dictGet, h]
  | cons kv d ih =>
      obtain ⟨k₀, v₀⟩ := kv
      by_cases h0 : k₀ = k
      · subst h0
        simp [dictInsert, dictGet, h]
      · by_cases h1 : k₀ = k'
        · simp [dictInsert, h0, dictGet, h1, Ne.symm h]
        · simp [dictInsert, h0, dictGet, h1, ih]

theorem keys_insert {α : Type} (d : List (String × α)) (k : String) (v : α) :
    keys (dictInsert d k v) = if k ∈ keys d then keys d else keys d ++ [k] := by
  induction d with
  | nil => simp [dictInsert, keys]
  | cons kv d ih =>
      obtain ⟨k₀, v₀⟩ := kv
      by_cases h0 : k₀ = k
      · subst h0
        simp [dictInsert, keys]
      · simp only [dictInsert, if_neg h0, keys, List.map_cons] at ih ⊢
        rw [ih]
        by_cases h1 : k ∈ List.map Prod.fst d
        · simp [h1, Ne.symm h0]
        · simp [h1, Ne.symm h0]

theorem dictGet_eq_none_iff {α : Type} (d : List (String × α)) (k : String) :
    dictGet d k = none ↔ k ∉ keys d := by
  induction d with
  | nil => simp [dictGet, keys]
  | cons kv d ih =>
      obtain ⟨k₀, v₀⟩ := kv
      by_cases h0 : k₀ = k
      · subst h0
        simp [dictGet, keys]
      · simp [dictGet, h0, keys, ih, Ne.symm h0]

theorem lastWith_mem {ps : List String} {k q : String}
    (h : lastWith ps k = some q) : q ∈ ps ∧ basename q = k := by
  induction ps with
  | nil => simp [lastWith] at h
  | cons p ps ih =>
      simp only [lastWith] at h
      cases hl : lastWith ps k with
      | some q' =>
          rw [hl] at h
          simp at h
          subst h
          exact ⟨List.mem_cons_of_mem _ (ih hl).1, (ih hl).2⟩
      | none =>
          rw [hl] at h
          by_cases hb : basename p = k
          · simp [hb] at h
            subst h
            exact ⟨List.mem_cons_self _ _, hb⟩
          · simp [hb] at h

theorem lastWith_isSome {ps : List String} {p k : String}
    (hp : p ∈ ps) (hk : basename p = k) : ∃ q, lastWith ps k = some q := by
  induction ps with
  | nil => simp at hp
  | cons p' ps ih =>
      simp only [lastWith]
      cases hl : lastWith ps k with
      | some q' => exact ⟨q', by simp⟩
      | none =>
          rcases List.mem_cons.mp hp with h | h
          · subst h
            exact ⟨p, by simp [hk]⟩
          · rcases ih h with ⟨q, hq⟩
            rw [hq] at hl
            cases hl

theorem lastWith_uniq {ps : List String} {p : String}
    (hp : p ∈ ps) (huniq : ∀ q ∈ ps, basename q = basename p → q = p) :
    lastWith ps (basename p) = some p := by
  rcases lastWith_isSome hp rfl with ⟨q, hq⟩
  rcases lastWith_mem hq with ⟨hqmem, hqbase⟩
  rw [hq, huniq q hqmem hqbase]

theorem lastTextSuccess_eq_none {w : World} {ps : List String} {k : String}
    (h : ∀ q ∈ ps, basename q = k → ¬(extract_text_from_pdf w q).isOk) :
    lastTextSuccess w ps k = none := by
  induction ps with
  | nil => simp [lastTextSuccess]
  | cons p ps ih =>
      have hps : lastTextSuccess w ps k = none :=
        ih fun q hq => h q (List.mem_cons_of_mem _ hq)
      simp only [lastTextSuccess, hps]
      by_cases hb : basename p = k
      · have hfail := h p (List.mem_cons_self _ _) hb
        cases hx : extract_text_from_pdf w p with
        | ok t =>
            rw [hx] at hfail
            simp [Except.isOk, Except.toBool] at hfail
        | error e => simp [hb, hx, Except.toOption]
      · simp [hb]

theorem lastTextSuccess_ok {w : World} {ps : List String} {k : String} {t : String}
    (h : lastTextSuccess w ps k = some t) :
    ∃ q ∈ ps, basename q = k ∧ extract_text_from_pdf w q = .ok t := by
  induction ps with
  | nil => simp [lastTextSuccess] at h
  | cons p ps ih =>
      simp only [lastTextSuccess] at h
      cases hl : lastTextSuccess w ps k with
      | some t' =>
          rw [hl] at h
          simp at h
          subst h
          rcases ih hl with ⟨q, hq, hb, he⟩
          exact ⟨q, List.mem_cons_of_mem _ hq, hb, he⟩
      | none =>
          rw [hl] at h
          by_cases hb : basename p = k
          · simp only [hb, if_true] at h
            cases hx : extract_text_from_pdf w p with
            | ok t' =>
                rw [hx] at h
                simp [Except.toOption] at h
                subst h
                exact ⟨p, List.mem_cons_self _ _, hb, hx⟩
            | error e =>
                rw [hx] at h
                simp [Except.toOption] at h
          · simp [hb] at h

theorem extractLoop_fst_none {w : World} {ps : List String} {k : String}
    (h : lastTextSuccess w ps k = none) :
    ∀ res failed, dictGet (extractLoop w ps res failed).1 k = dictGet res k := by
  induction ps with
  | nil =>
      intro res failed
      rfl
  | cons p ps ih =>
      intro res failed
      simp only [lastTextSuccess] at h
      cases hl : lastTextSuccess w ps k with
      | some t =>
          rw [hl] at h
          simp at h
      | none =>
          rw [hl] at h
          cases hx : extract_text_from_pdf w p with
          | ok t =>
              by_cases hb : basename p = k
              · rw [hx] at h
                simp [hb, Except.toOption] at h
              · simp only [extractLoop, hx]
                rw [ih hl, dictGet_insert_ne _ _ _ _ hb]
          | error e =>
              simp only [extractLoop, hx]
              exact ih hl res _

theorem extractLoop_fst_some {w : World} {ps : List String} {k t : String}
    (h : lastTextSuccess w ps k = some t) :
    ∀ res failed, dictGet (extractLoop w ps res failed).1 k = some t := by
  induction ps with
  | nil => simp [lastTextSuccess] at h
  | cons p ps ih =>
      intro res failed
      simp only [lastTextSuccess] at h
      cases hl : lastTextSuccess w ps k with
      | some t' =>
          rw [hl] at h
          simp at h
          subst h
          cases hx : extract_text_from_pdf w p with
          | ok t0 =>
              simp only [extractLoop, hx]
              exact ih hl _ _
          | error e =>
              simp only [extractLoop, hx]
              exact ih hl _ _
      | none =>
          rw [hl] at h
          by_cases hb : basename p = k
          · simp only [hb, if_true] at h
            cases hx : extract_text_from_pdf w p with
            | ok t0 =>
                rw [hx] at h
                simp [Except.toOption] at h
                subst h
                simp only [extractLoop, hx]
                rw [extractLoop_fst_none hl, hb, dictGet_insert_eq]
            | error e =>
                rw [hx] at h
                simp [Except.toOption] at h
          · simp [hb] at h

theorem batch_get (w : World) (ps : List String) (k : String) :
    dictGet (extract_text_from_multiple_pdfs w ps).1 k = lastTextSuccess w ps k := by
  cases hl : lastTextSuccess w ps k with
  | some t => exact extractLoop_fst_some hl [] []
  | none => exact extractLoop_fst_none hl [] []

theorem extractLoop_snd (w : World) (ps : List String) :
    ∀ res failed, (extractLoop w ps res failed).2 =
      failed ++ ps.filterMap (failEntry w) := by
  induction ps with
  | nil =>
      intro res failed
      simp [extractLoop]
  | cons p ps ih =>
      intro res failed
      cases hx : extract_text_from_pdf w p with
      | ok t =>
          simp only [extractLoop, hx]
          rw [ih]
          simp [List.filterMap_cons, failEntry, hx]
      | error e =>
          simp only [extractLoop, hx]
          rw [ih]
          simp [List.filterMap_cons, failEntry, hx]

theorem batch_ledger (w : World) (ps : List String) :
    (extract_text_from_multiple_pdfs w ps).2 = ps.filterMap (failEntry w) := by
  rw [extract_text_from_multiple_pdfs, extractLoop_snd]
  rfl

theorem mergeLoop_get_none {w : World} {batch : List (String × String)}
    {ps : List String} {k : String} (h : lastWith ps k = none) :
    ∀ acc, dictGet (mergeLoop w batch ps acc) k = dictGet acc k := by
  induction ps with
  | nil =>
      intro acc
      rfl
  | cons p ps ih =>
      intro acc
      simp only [lastWith] at h
      cases hl : lastWith ps k with
      | some q =>
          rw [hl] at h
          simp at h
      | none =>
          rw [hl] at h
          by_cases hb : basename p = k
          · simp [hb] at h
          · simp only [mergeLoop]
            rw [ih hl, dictGet_insert_ne _ _ _ _ hb]

theorem mergeLoop_get_some {w : World} {batch : List (String × String)}
    {ps : List String} {k q : String} (h : lastWith ps k = some q) :
    ∀ acc, dictGet (mergeLoop w batch ps acc) k =
      some ⟨(dictGet batch k).getD "", get_pdf_metadata w q⟩ := by
  induction ps with
  | nil => simp [lastWith] at h
  | cons p ps ih =>
      intro acc
      simp only [lastWith] at h
      cases hl : lastWith ps k with
      | some q' =>
          rw [hl] at h
          simp at h
          subst h
          simp only [mergeLoop]
          exact ih hl _
      | none =>
          rw [hl] at h
          by_cases hb : basename p = k
          · simp [hb] at h
            subst h
            simp only [mergeLoop]
            rw [mergeLoop_get_none hl, hb, dictGet_insert_eq]
          · simp [hb] at h

theorem mergeLoop_keys (w : World) (batch : List (String × String)) (ps : List String) :
    ∀ acc, keys (mergeLoop w batch ps acc) =
      keys acc ++ firstOccFrom (keys acc) (ps.map basename) := by
  induction ps with
  | nil =>
      intro acc
      simp [mergeLoop, firstOccFrom]
  | cons p ps ih =>
      intro acc
      simp only [mergeLoop, List.map_cons, firstOccFrom]
      by_cases h1 : basename p ∈ keys acc
      · rw [ih, keys_insert]
        simp [h1]
      · rw [ih, keys_insert]
        simp [h1]

theorem mem_firstOccFrom (x : String) : ∀ (seen l : List String),
    x ∈ firstOccFrom seen l ↔ x ∈ l ∧ x ∉ seen := by
  intro seen l
  induction l generalizing seen with
  | nil => simp [firstOccFrom]
  | cons k ks ih =>
      by_cases h : k ∈ seen
      · simp only [firstOccFrom, if_pos h, List.mem_cons]
        rw [ih]
        constructor
        · rintro ⟨hx, hs⟩
          exact ⟨Or.inr hx, hs⟩
        · rintro ⟨hx | hx, hs⟩
          · subst hx
            exact absurd h hs
          · exact ⟨hx, hs⟩
      · simp only [firstOccFrom, if_neg h, List.mem_cons]
        rw [ih]
        simp only [List.mem_append, List.mem_singleton]
        constructor
        · rintro (rfl | ⟨hx, hs⟩)
          · exact ⟨Or.inl rfl, h⟩
          · exact ⟨Or.inr hx, fun hc => hs (Or.inl hc)⟩
        · rintro ⟨hx | hx, hs⟩
          · exact Or.inl hx
          · by_cases hxk : x = k
            · exact Or.inl hxk
            · exact Or.inr ⟨hx, fun hc => hc.elim hs hxk⟩

theorem nodup_firstOccFrom : ∀ (seen l : List String), (firstOccFrom seen l).Nodup := by
  intro seen l
  induction l generalizing seen with
  | nil => simp [firstOccFrom]
  | cons k ks ih =>
      by_cases h : k ∈ seen
      · simpa [firstOccFrom, if_pos h] using ih seen
      · simp only [firstOccFrom, if_neg h]
        refine List.nodup_cons.mpr ⟨?_, ih _⟩
        intro hc
        rcases (mem_firstOccFrom k (seen ++ [k]) ks).mp hc with ⟨_, hns⟩
        exact hns (by simp)

theorem toFinset_firstOcc (l : List String) : (firstOcc l).toFinset = l.toFinset := by
  ext x
  simp [firstOcc, List.mem_toFinset, mem_firstOccFrom]

theorem length_firstOcc (l : List String) : (firstOcc l).length = l.toFinset.card := by
  rw [← toFinset_firstOcc]
  exact (List.toFinset_card_of_nodup (nodup_firstOccFrom [] l)).symm

theorem batchResult_get_some {w : World} {ps : List String} {k q : String}
    (h : lastWith ps k = some q) :
    dictGet (batchResult w ps) k =
      some ⟨(lastTextSuccess w ps k).getD "", get_pdf_metadata w q⟩ := by
  unfold batchResult
  rw [mergeLoop_get_some h, batch_get]

theorem batchResult_keys (w : World) (ps : List String) :
    keys (batchResult w ps) = firstOcc (ps.map basename) := by
  unfold batchResult
  rw [mergeLoop_keys]
  simp [keys, firstOcc]

/-- An empty filesystem: every path is missing. -/
def wEmpty : World := fun _ => none

/-- A filesystem where `d1/a.pdf` is missing while `d2/a.pdf` holds a
one-page document reading "hello" with no metadata object. -/
def wHello : World := fun p =>
  if p = "d2/a.pdf" then some (.pdf ⟨[some "hello"], none, 0⟩) else none

/-- A filesystem where `d1/a.pdf` holds a one-page document reading "X"
while `d2/a.pdf` is missing. -/
def wX : World := fun p =>
  if p = "d1/a.pdf" then some (.pdf ⟨[some "X"], none, 0⟩) else none

/-- A filesystem where `a.pdf` is a one-page 1 MiB document whose metadata
object exists but carries neither title nor author. -/
def wNoFields : World := fun p =>
  if p = "a.pdf" then some (.pdf ⟨[some "x"], some ⟨none, none⟩, 1048576⟩)
  else none

/-- A filesystem with a three-page document whose middle page yields no text,
with a full metadata object. -/
def wBook : World := fun p =>
  if p = "docs/book.pdf" then
    some (.pdf ⟨[some "a", none, some "b"], some ⟨some "Doc A", some "Ann"⟩, 3145728⟩)
  else none

/-- Accumulating a page fold from any prefix appends the newline-joined page
texts. -/
theorem foldl_pages (l : List (Option String)) :
    ∀ s : String,
      l.foldl (fun text pg => text ++ pg.getD "" ++ "\n") s = s ++ pagesJoined l := by
  induction l with
  | nil =>
      intro s
      simp [pagesJoined]
  | cons t ts ih =>
      intro s
      simp only [List.foldl_cons, pagesJoined]
      rw [ih]
      simp [String.append_assoc]

/-- C3: `get_pdf_metadata` (the MetadataProbe) is a total function of the
world and the identifier — it never raises.  When the identifier resolves to a
parseable document it returns the full record; for every other input (missing
file or unparseable byte stream) it returns the Degraded record carrying
exactly the basename of the identifier and an error message string. -/
theorem C3_probe_never_raises (w : World) (p : String) :
    ((∃ doc, w p = some (.pdf doc)) →
      ∃ n q t a, get_pdf_metadata w p = DocumentMetadata.ok (basename p) n q t a) ∧
    ((∀ doc, w p ≠ some (.pdf doc)) →
      ∃ err, get_pdf_metadata w p = .degraded (basename p) err) := by
  constructor
  · rintro ⟨doc, hw⟩
    refine ⟨doc.pages.length, round2 ((doc.sizeBytes : ℚ) / (1024 * 1024)),
      (match doc.metadata with | some i => i.title | none => some "Unknown"),
      (match doc.metadata with | some i => i.author | none => some "Unknown"), ?_⟩
    simp [get_pdf_metadata, hw]
  · intro hne
    cases hw : w p with
    | none => exact ⟨errMsg (.notFound p), by simp [get_pdf_metadata, hw]⟩
    | some entry =>
        cases entry with
        | pdf doc => exact absurd hw (hne doc)
        | corrupt m => exact ⟨errMsg (.corruptDoc m), by simp [get_pdf_metadata, hw]⟩

/-- Witness for C3 at a concrete nonexistent path. -/
theorem C3_probe_never_raises_witness :
    ∃ err, get_pdf_metadata wEmpty "x/b.pdf" = .degraded (basename "x/b.pdf") err :=
  (C3_probe_never_raises wEmpty "x/b.pdf").2 (fun doc h => by simp [wEmpty] at h)

/-- C4: `extract_pdfs_with_metadata` dispatches on the dynamic type of its
input: a value that is neither a string nor a list raises `InvalidInputType`
and yields no result; a string takes the single-item path (returning its
one-entry mapping on success, propagating the read error on failure); a list
takes the batch path. -/
theorem C4_dispatch (w : World) :
    extract_pdfs_with_metadata w .other = .error .invalidInputType ∧
    (∀ p t, extract_text_from_pdf w p = .ok t →
      extract_pdfs_with_metadata w (.str p) =
        .ok [(basename p, ⟨t, get_pdf_metadata w p⟩)]) ∧
    (∀ p e, extract_text_from_pdf w p = .error e →
      extract_pdfs_with_metadata w (.str p) = .error (.pdfErr e)) ∧
    (∀ ps, extract_pdfs_with_metadata w (.list ps) = .ok (batchResult w ps)) := by
  refine ⟨rfl, ?_, ?_, fun ps => rfl⟩
  · intro p t h
    simp [extract_pdfs_with_metadata, h]
  · intro p e h
    simp [extract_pdfs_with_metadata, h]

/-- Witness for C4: the int-like input raises `InvalidInputType`, and a
missing single path propagates `NotFound`. -/
theorem C4_dispatch_witness :
    extract_pdfs_with_metadata wEmpty .other = .error .invalidInputType ∧
    extract_pdfs_with_metadata wEmpty (.str "b.pdf") =
      .error (.pdfErr (.notFound "b.pdf")) :=
  ⟨(C4_dispatch wEmpty).1, (C4_dispatch wEmpty).2.2.1 "b.pdf" _ rfl⟩

/-- C5: on a readable document, `extract_text_from_pdf` returns the page
texts in file order (empty string for a page yielding none), each followed by
a newline, including after the last page; a zero-page document yields the
empty string. -/
theorem C5_page_concatenation (w : World) (p : String) (doc : PdfDoc)
    (h : w p = some (.pdf doc)) :
    extract_text_from_pdf w p = .ok (pagesJoined doc.pages) ∧
    (doc.pages = [] → extract_text_from_pdf w p = .ok "") := by
  have hmain : extract_text_from_pdf w p = .ok (pagesJoined doc.pages) := by
    simp only [extract_text_from_pdf, h]
    rw [foldl_pages]
    simp
  refine ⟨hmain, fun h0 => ?_⟩
  rw [hmain, h0]
  rfl

/-- Witness for C5 on a concrete three-page document with an empty middle
page. -/
theorem C5_page_concatenation_witness :
    extract_text_from_pdf wBook "docs/book.pdf" =
      .ok (pagesJoined [some "a", none, some "b"]) :=
  (C5_page_concatenation wBook "docs/book.pdf"
    ⟨[some "a", none, some "b"], some ⟨some "Doc A", some "Ann"⟩, 3145728⟩ rfl).1

/-- C7: for every (non-empty) list input, the batch result has exactly one
entry per distinct basename among the inputs; identifiers sharing a basename
collapse to a single entry. -/
theorem C7_distinct_basenames (w : World) (ps : List String) (_h : ps ≠ []) :
    extract_pdfs_with_metadata w (.list ps) = .ok (batchResult w ps) ∧
    (batchResult w ps).length = (ps.map basename).toFinset.card := by
  refine ⟨rfl, ?_⟩
  have hlen : (batchResult w ps).length = (keys (batchResult w ps)).length := by
    simp [keys]
  rw [hlen, batchResult_keys, length_firstOcc]

/-- Witness for C7: two paths with the same basename yield one entry. -/
theorem C7_distinct_basenames_witness :
    (batchResult wHello ["d1/a.pdf", "d2/a.pdf"]).length =
      ((["d1/a.pdf", "d2/a.pdf"] : List String).map basename).toFinset.card :=
  (C7_distinct_basenames wHello ["d1/a.pdf", "d2/a.pdf"] (by simp)).2

/-- C8: for a single identifier whose text extraction succeeds, the single
string path and the one-element list path return structurally equal
mappings. -/
theorem C8_single_vs_batch (w : World) (p t : String)
    (h : extract_text_from_pdf w p = .ok t) :
    extract_pdfs_with_metadata w (.str p) =
      extract_pdfs_with_metadata w (.list [p]) := by
  have hb : dictGet (extract_text_from_multiple_pdfs w [p]).1 (basename p) = some t := by
    rw [batch_get]
    simp [lastTextSuccess, h, Except.toOption]
  simp only [extract_pdfs_with_metadata, h, batchResult, mergeLoop, hb]
  rfl

/-- Witness for C8 on a concrete readable document. -/
theorem C8_single_vs_batch_witness :
    extract_pdfs_with_metadata wHello (.str "d2/a.pdf") =
      extract_pdfs_with_metadata wHello (.list ["d2/a.pdf"]) :=
  C8_single_vs_batch wHello "d2/a.pdf" "hello\n" rfl

/-- C10: the empty list raises no error: the batch entry point returns the
empty mapping, and `extract_text_from_multiple_pdfs` returns an empty mapping
with an empty FailureLedger. -/
theorem C10_empty_batch (w : World) :
    extract_pdfs_with_metadata w (.list []) = .ok [] ∧
    extract_text_from_multiple_pdfs w [] = ([], []) :=
  ⟨rfl, rfl⟩

/-- C1 counterexample: in the batch `["d1/a.pdf", "d2/a.pdf"]` over a
filesystem where `d1/a.pdf` is missing and `d2/a.pdf` reads "hello", text
extraction for `d1/a.pdf` fails, yet the BatchResult entry keyed by its
basename `a.pdf` has text `"hello\n"`, not `""` — the claim's universal
`text = ""` for failed identifiers is false under basename collision. -/
theorem C1_counterexample :
    (extract_text_from_pdf wHello "d1/a.pdf").isOk = false ∧
    basename "d1/a.pdf" = "a.pdf" ∧
    (dictGet (batchResult wHello ["d1/a.pdf", "d2/a.pdf"]) "a.pdf").map Entry.text =
      some "hello\n" ∧
    some "hello\n" ≠ some ("" : String) :=
  ⟨rfl, rfl, rfl, by simp⟩

/-- C1 (amended): an identifier whose text extraction failed still appears in
the BatchResult keyed by its basename and, provided no other identifier in
the list shares that basename, its entry has text `""` and metadata exactly
the record of the independent probe for that identifier (Degraded or Ok
depending only on the probe); in particular a missing file yields a Degraded
record carrying an error string. -/
theorem C1_text_failure_entry (w : World) (ps : List String) (p : String)
    (hp : p ∈ ps) (hfail : (extract_text_from_pdf w p).isOk = false)
    (huniq : ∀ q ∈ ps, basename q = basename p → q = p) :
    extract_pdfs_with_metadata w (.list ps) = .ok (batchResult w ps) ∧
    dictGet (batchResult w ps) (basename p) = some ⟨"", get_pdf_metadata w p⟩ ∧
    (w p = none →
      get_pdf_metadata w p = .degraded (basename p) (errMsg (.notFound p))) := by
  refine ⟨rfl, ?_, ?_⟩
  · have hlast : lastWith ps (basename p) = some p := lastWith_uniq hp huniq
    have hnone : lastTextSuccess w ps (basename p) = none := by
      apply lastTextSuccess_eq_none
      intro q hq hb
      rw [huniq q hq hb]
      simp [hfail]
    rw [batchResult_get_some hlast, hnone]
    rfl
  · intro hw
    simp [get_pdf_metadata, hw]

/-- Witness for C1 (amended) at a concrete missing file in a batch. -/
theorem C1_text_failure_entry_witness :
    dictGet (batchResult wEmpty ["b.pdf"]) (basename "b.pdf") =
      some ⟨"", get_pdf_metadata wEmpty "b.pdf"⟩ ∧
    get_pdf_metadata wEmpty "b.pdf" =
      .degraded (basename "b.pdf") (errMsg (.notFound "b.pdf")) :=
  ⟨(C1_text_failure_entry wEmpty ["b.pdf"] "b.pdf" (by simp) rfl (by simp)).2.1,
   (C1_text_failure_entry wEmpty ["b.pdf"] "b.pdf" (by simp) rfl (by simp)).2.2 rfl⟩

/-- C2 counterexample: text extraction for the missing `b.pdf` fails entirely,
yet the returned BatchResult does contain an entry for it (with text `""` and
a Degraded metadata record) — the claim's "no entry is added to the
BatchResult" is false for the batch entry point. -/
theorem C2_counterexample :
    (extract_text_from_pdf wEmpty "b.pdf").isOk = false ∧
    extract_pdfs_with_metadata wEmpty (.list ["b.pdf"]) =
      .ok (batchResult wEmpty ["b.pdf"]) ∧
    dictGet (batchResult wEmpty ["b.pdf"]) "b.pdf" =
      some ⟨"", .degraded "b.pdf" (errMsg (.notFound "b.pdf"))⟩ ∧
    dictGet (batchResult wEmpty ["b.pdf"]) "b.pdf" ≠ none :=
  ⟨rfl, rfl, rfl, by decide⟩

/-- C2 (amended): every identifier submitted yields exactly one entry in the
returned BatchResult, keyed by its basename (keys are duplicate-free); when
text extraction fails entirely for an identifier, the failure is recorded in
the FailureLedger and the identifier contributes no entry to the intermediate
text mapping (its basename is absent from that mapping when every
same-basename identifier failed), while its BatchResult entry still exists. -/
theorem C2_every_id_one_entry (w : World) (ps : List String) (p : String)
    (hp : p ∈ ps) :
    extract_pdfs_with_metadata w (.list ps) = .ok (batchResult w ps) ∧
    (keys (batchResult w ps)).Nodup ∧
    (∃ e, dictGet (batchResult w ps) (basename p) = some e) ∧
    (∀ err, extract_text_from_pdf w p = .error err →
      (basename p, errMsg err) ∈ (extract_text_from_multiple_pdfs w ps).2) ∧
    ((∀ q ∈ ps, basename q = basename p → (extract_text_from_pdf w q).isOk = false) →
      dictGet (extract_text_from_multiple_pdfs w ps).1 (basename p) = none) := by
  refine ⟨rfl, ?_, ?_, ?_, ?_⟩
  · rw [batchResult_keys]
    exact nodup_firstOccFrom [] _
  · rcases lastWith_isSome hp rfl with ⟨q, hq⟩
    exact ⟨_, batchResult_get_some hq⟩
  · intro err herr
    rw [batch_ledger]
    exact List.mem_filterMap.mpr ⟨p, hp, by simp [failEntry, herr]⟩
  · intro hall
    rw [batch_get]
    apply lastTextSuccess_eq_none
    intro q hq hb
    simp [hall q hq hb]

/-- Witness for C2 (amended) at a concrete missing file in a batch. -/
theorem C2_every_id_one_entry_witness :
    (keys (batchResult wEmpty ["b.pdf"])).Nodup ∧
    (∃ e, dictGet (batchResult wEmpty ["b.pdf"]) (basename "b.pdf") = some e) ∧
    (basename "b.pdf", errMsg (.notFound "b.pdf")) ∈
      (extract_text_from_multiple_pdfs wEmpty ["b.pdf"]).2 ∧
    dictGet (extract_text_from_multiple_pdfs wEmpty ["b.pdf"]).1 (basename "b.pdf") =
      none := by
  have h := C2_every_id_one_entry wEmpty ["b.pdf"] "b.pdf" (by simp)
  exact ⟨h.2.1, h.2.2.1, h.2.2.2.1 _ rfl, h.2.2.2.2 (by decide)⟩

/-- C6 counterexample: for a document whose metadata object exists but
carries no title and no author, the probe returns `None` for both fields, not
the sentinel `"Unknown"` — the claim's "whenever the individual title or
author field is missing" is false; the sentinel applies only when the parser
reports no metadata object at all. -/
theorem C6_counterexample :
    get_pdf_metadata wNoFields "a.pdf" =
      .ok "a.pdf" 1 (round2 (((1048576 : Nat) : ℚ) / (1024 * 1024))) none none ∧
    DocumentMetadata.ok "a.pdf" 1 (round2 (((1048576 : Nat) : ℚ) / (1024 * 1024))) none none ≠
      DocumentMetadata.ok "a.pdf" 1 (round2 (((1048576 : Nat) : ℚ) / (1024 * 1024)))
        (some "Unknown") (some "Unknown") :=
  ⟨by rfl, by simp⟩

/-- C6 (amended): on a successful probe, `file_size_mb` is the filesystem
size in megabytes rounded to 2 decimal places, `pages` is the parser-reported
page count, and `title`/`author` are the sentinel `"Unknown"` exactly when the
parser reports no metadata object; when a metadata object exists they are its
fields verbatim, including the parser's null for a missing field. -/
theorem C6_metadata_fields (w : World) (p : String) (doc : PdfDoc)
    (h : w p = some (.pdf doc)) :
    get_pdf_metadata w p =
      .ok (basename p) doc.pages.length
        (round2 ((doc.sizeBytes : ℚ) / (1024 * 1024)))
        (match doc.metadata with | some i => i.title | none => some "Unknown")
        (match doc.metadata with | some i => i.author | none => some "Unknown") ∧
    (doc.metadata = none →
      get_pdf_metadata w p =
        .ok (basename p) doc.pages.length
          (round2 ((doc.sizeBytes : ℚ) / (1024 * 1024)))
          (some "Unknown") (some "Unknown")) := by
  constructor
  · simp [get_pdf_metadata, h]
  · intro h0
    simp [get_pdf_metadata, h, h0]

/-- Witness for C6 (amended) on a concrete document with no metadata
object. -/
theorem C6_metadata_fields_witness :
    get_pdf_metadata wHello "d2/a.pdf" =
      .ok (basename "d2/a.pdf") 1 (round2 (((0 : Nat) : ℚ) / (1024 * 1024)))
        (some "Unknown") (some "Unknown") :=
  (C6_metadata_fields wHello "d2/a.pdf" ⟨[some "hello"], none, 0⟩ rfl).2 rfl

/-- C9 counterexample: in the batch `["d1/a.pdf", "d2/a.pdf"]` where the
first reads "X" and the second (the LAST occurrence of basename `a.pdf`) is
missing, the entry holds text `"X\n"` — the text of the earlier successful
identifier, not the (empty) text produced for the last occurrence. -/
theorem C9_counterexample :
    lastWith ["d1/a.pdf", "d2/a.pdf"] "a.pdf" = some "d2/a.pdf" ∧
    (extract_text_from_pdf wX "d2/a.pdf").isOk = false ∧
    (dictGet (batchResult wX ["d1/a.pdf", "d2/a.pdf"]) "a.pdf").map Entry.text =
      some "X\n" ∧
    some "X\n" ≠ some ("" : String) :=
  ⟨rfl, rfl, rfl, by simp⟩

/-- C9 (amended): for a basename occurring in the input, the BatchResult
entry holds the metadata produced for the LAST identifier with that basename,
and the text of the last SAME-BASENAME identifier whose extraction succeeded
(empty string when none succeeded); the entry's position in iteration order
is that of the first occurrence (keys are the first-occurrence dedup of the
input basenames). -/
theorem C9_collision_last_wins (w : World) (ps : List String) (k : String)
    (h : ∃ p ∈ ps, basename p = k) :
    ∃ q, lastWith ps k = some q ∧ q ∈ ps ∧ basename q = k ∧
      dictGet (batchResult w ps) k =
        some ⟨(lastTextSuccess w ps k).getD "", get_pdf_metadata w q⟩ ∧
      keys (batchResult w ps) = firstOcc (ps.map basename) := by
  rcases h with ⟨p, hp, hb⟩
  rcases lastWith_isSome hp hb with ⟨q, hq⟩
  rcases lastWith_mem hq with ⟨hqmem, hqbase⟩
  exact ⟨q, hq, hqmem, hqbase, batchResult_get_some hq, batchResult_keys w ps⟩

/-- Witness for C9 (amended) on a concrete colliding batch. -/
theorem C9_collision_last_wins_witness :
    ∃ q, lastWith ["d1/a.pdf", "d2/a.pdf"] "a.pdf" = some q ∧
      q ∈ (["d1/a.pdf", "d2/a.pdf"] : List String) ∧ basename q = "a.pdf" ∧
      dictGet (batchResult wX ["d1/a.pdf", "d2/a.pdf"]) "a.pdf" =
        some ⟨(lastTextSuccess wX ["d1/a.pdf", "d2/a.pdf"] "a.pdf").getD "",
              get_pdf_metadata wX q⟩ ∧
      keys (batchResult wX ["d1/a.pdf", "d2/a.pdf"]) =
        firstOcc ((["d1/a.pdf", "d2/a.pdf"] : List String).map basename) :=
  C9_collision_last_wins wX ["d1/a.pdf", "d2/a.pdf"] "a.pdf"
    ⟨"d1/a.pdf", by simp, rfl⟩

end PdfUtils
